import Mathlib

/-
Verification of the scdlpicker association/relocation core.

Shallow embedding of the Python sources:
  bin/scdlpicker-client.py         (waveform gap filter, event workspace
                                    state machine, adaptive maximum distance,
                                    predicted-pick synthesis)
  bin/scdlpicker-relocate-event.py (relocator entry point)
  lib/dbutil.py                    (candidate pre-filter, deduplication,
                                    arrival building)

Times, distances and residuals are modelled over ℚ.  External collaborators
(station inventory lookup plus geodesic distance, travel-time tables) are
modelled as function parameters; a Python exception is modelled as the error
side of an Except value.
-/

-- A raised Python exception, by kind.
inductive PyErr where
  | attributeError (name : String)
  | typeError
  | indexError
  | nameError
  | keyError
deriving Repr, DecidableEq

-- network / station / location / channel identity of a waveform stream
abbrev Nslc := String × String × String × String

-- ---------------------------------------------------------------------
-- Waveform completeness filter (client `_loadWaveformsForPicks`, gap stage)
-- ---------------------------------------------------------------------

-- One miniSEED record, reduced to its time span [t1, t2].
structure WRec where
  t1 : ℚ
  t2 : ℚ
deriving Repr, DecidableEq

/-- Modelled from the spec: `scdlpicker.util.gappy` is not under src/.
Spec 4.6: consecutive records on the same stream must be contiguous within a
tolerance; the stream is gappy iff some inter-record gap exceeds it. -/
def gappy (tol : ℚ) : List WRec → Bool
  | a :: b :: rest => decide (tol < b.t1 - a.t2) || gappy tol (b :: rest)
  | _ => false

/-- Modelled from the spec: `scdlpicker.util.prepare` is not under src/.
The data model requires an ordered record list, so records are stably
sorted by start time. -/
def insertRec (r : WRec) : List WRec → List WRec
  | [] => [r]
  | q :: qs => if q.t1 < r.t1 then q :: insertRec r qs else r :: q :: qs

/-- Modelled from the spec: ordering stage of `scdlpicker.util.prepare`. -/
def prepare : List WRec → List WRec
  | [] => []
  | r :: rs => insertRec r (prepare rs)

/-- Gap stage of `_loadWaveformsForPicks` (client lines 478-488): every
stream is prepared, gappy streams are collected into `gappyStreams` (which
the source merely logs); the returned waveform set is the first component. -/
def removeGappyStage (tol : ℚ) (waveforms : List (String × List WRec)) :
    List (String × List WRec) × List String :=
  let prepared := waveforms.map (fun sw => (sw.1, prepare sw.2))
  let gappyStreams := (prepared.filter (fun sw => gappy tol sw.2)).map Prod.fst
  (prepared, gappyStreams)

-- ---------------------------------------------------------------------
-- Event workspace state machine (client `processOrigin`, lines 641-757)
-- ---------------------------------------------------------------------

-- A pick as seen by the client loop.
structure CPick where
  id : String
  wfid : String
  manual : Bool
  methodID : Option String
  author : Option String
deriving Repr, DecidableEq

-- client line 80
def repickMethodIDs : List String :=
  ["DL", "PhaseNet", "PHN", "EQTransformer", "EQT", "XYZ"]

/-- client `isRepick` (lines 75-93); a missing attribute is a `none` field
and behaves like the caught AttributeError/ValueError. -/
def isRepick (authorParam : Option String) (p : CPick) : Bool :=
  (match p.methodID with
   | some m => repickMethodIDs.contains m
   | none => false)
  ||
  (match authorParam, p.author with
   | some a, some pa => pa == a
   | _, _ => false)

-- Per-event workspace state (the fields of EventWorkspace that
-- `processOrigin` reads and writes).  `attempted` keeps (pick ID,
-- waveform ID) pairs, as the source consults the waveform ID of
-- previously attempted picks.
structure WS where
  all_picks : List String
  new_picks : List String
  attempted : List (String × String)
  mlpicks : List String
deriving Repr

def attemptedIds (ws : WS) : List String := ws.attempted.map Prod.fst

-- client lines 656-659: unconditionally register the pick in all_picks
def bumpAll (ws : WS) (p : CPick) : WS :=
  if p.id ∈ ws.all_picks then ws
  else { ws with all_picks := ws.all_picks ++ [p.id] }

/-- Guard chain of the associated-pick loop, client lines 661-695.
The check `p.id ∈ ws.mlpicks` at line 670 only emits a log line in the
source (there is no `continue`), so it has no effect on the state and is
recorded here as an unused test. -/
def stepRepick (repickManualPicks : Bool) (authorParam : Option String)
    (ws : WS) (p : CPick) : WS :=
  if p.manual && !repickManualPicks then ws
  else
    let _loggedOnly := decide (p.id ∈ ws.mlpicks)
    if p.id ∈ attemptedIds ws then ws
    else if isRepick authorParam p then ws
    else if ws.attempted.any (fun q => q.2 == p.wfid) then ws
    else { ws with new_picks := ws.new_picks ++ [p.id],
                   attempted := ws.attempted ++ [(p.id, p.wfid)] }

-- one associated pick processed by the loop at client lines 654-695
def stepAssoc (repickManualPicks : Bool) (authorParam : Option String)
    (ws : WS) (p : CPick) : WS :=
  stepRepick repickManualPicks authorParam (bumpAll ws p) p

-- One predicted pick processed by the loop at client lines 748-757: an
-- unknown pick is registered in all_picks, and is added to new_picks and
-- attempted only when its ID was not attempted before (line 752 guard).
def stepPred (ws : WS) (p : CPick) : WS :=
  if p.id ∈ ws.all_picks then ws
  else if p.id ∈ attemptedIds ws then
    { ws with all_picks := ws.all_picks ++ [p.id] }
  else
    { ws with all_picks := ws.all_picks ++ [p.id],
              new_picks := ws.new_picks ++ [p.id],
              attempted := ws.attempted ++ [(p.id, p.wfid)] }

-- The inputs of one processing pass of `processOrigin` over a workspace.
structure PassInput where
  assoc : List CPick
  predicted : List CPick
  repickManualPicks : Bool
  tryUnpicked : Bool
  author : Option String

/-- One `processOrigin` pass over the workspace state: `new_picks` is
cleared (client line 643), the associated picks are folded through the
guard chain, then, when `tryUpickedStations` is set, the predicted picks
are folded through the predicted-pick registration loop. -/
def processPass (ws : WS) (inp : PassInput) : WS :=
  let ws0 : WS := { ws with new_picks := [] }
  let ws1 := inp.assoc.foldl (stepAssoc inp.repickManualPicks inp.author) ws0
  if inp.tryUnpicked then inp.predicted.foldl stepPred ws1 else ws1

def runPasses (ws : WS) (passes : List PassInput) : WS :=
  passes.foldl processPass ws

-- ---------------------------------------------------------------------
-- Adaptive maximum search distance (client `processOrigin`, lines 709-741)
-- ---------------------------------------------------------------------

-- An arrival of the incoming origin: weight, and distance when defined
-- (an unset distance raises ValueError in the source and is skipped).
structure OArr where
  weight : ℚ
  distance : Option ℚ
deriving Repr, DecidableEq

-- client lines 723-731: distances of used arrivals (weight ≥ 0.5)
def usedDeltas (arrs : List OArr) : List ℚ :=
  arrs.filterMap (fun a => if a.weight < 1/2 then none else a.distance)

def insertQ (x : ℚ) : List ℚ → List ℚ
  | [] => [x]
  | y :: ys => if y ≤ x then y :: insertQ x ys else x :: y :: ys

-- ascending sort, client line 732 `delta.sort()`
def sortQ : List ℚ → List ℚ
  | [] => []
  | x :: xs => insertQ x (sortQ xs)

-- numpy.average: sum divided by length
def npAverage (l : List ℚ) : ℚ := l.sum / l.length

-- Python slice `delta[-3:]`
def lastThree (l : List ℚ) : List ℚ := l.drop (l.length - 3)

/-- client lines 709-741: the adaptive `maxDelta`.  The whitelist branch
(line 709) yields 105 directly; otherwise the mean of the last three of
the sorted used distances is taken and promoted to 105 when above 40. -/
def adaptiveMaxDelta (agencyWhitelisted : Bool) (arrs : List OArr) : ℚ :=
  if agencyWhitelisted then 105
  else
    let delta := sortQ (usedDeltas arrs)
    let m := npAverage (lastThree delta)
    if m > 40 then 105 else m

/-- The spec wording for the same quantity: the mean of the three largest
elements, i.e. the last three of the ascending sort, divided by three. -/
def mean3Largest (l : List ℚ) : ℚ := (lastThree (sortQ l)).sum / 3

-- ---------------------------------------------------------------------
-- Predicted-pick synthesis (client `findUnpickedStations`, lines 328-389)
-- ---------------------------------------------------------------------

-- An inventory entry as iterated by the source: stream identity (with the
-- channel already cut to two characters) plus the epicentral distance the
-- external delazi computation yields for the station.
structure SEntry where
  net : String
  sta : String
  loc : String
  cha : String
  delta : ℚ
deriving Repr, DecidableEq

-- The external collaborators of the client loops.  `ttimesC` is the
-- travel-time oracle (spec 4.1: an empty list means the distance is
-- outside the tabulated range); `registered` is Pick.Find; `mkID` is the
-- timestamp formatting of the predicted time.
structure ClientEnv where
  ttimesC : ℚ → List ℚ
  etimeC : ℚ
  blacklist : List (String × String)
  configured : List Nslc
  registered : String → Bool
  mkID : ℚ → String

/-- client lines 349-389: the station loop of `findUnpickedStations`.
At line 367 the source evaluates `arrivals[0]` without a guard, so an
empty travel-time result raises IndexError. -/
def findUnpickedStations (env : ClientEnv) (maxDelta : ℚ) :
    List SEntry → List (String × ℚ) → Except PyErr (List (String × ℚ))
  | [], acc => Except.ok acc
  | st :: rest, acc =>
    if (st.net, st.sta) ∈ env.blacklist then
      findUnpickedStations env maxDelta rest acc
    else if (st.net, st.sta, if st.loc = "" then "--" else st.loc, st.cha)
        ∉ env.configured then
      findUnpickedStations env maxDelta rest acc
    else if maxDelta < st.delta then
      findUnpickedStations env maxDelta rest acc
    else
      match env.ttimesC st.delta with
      | [] => Except.error PyErr.indexError
      | t0 :: _ =>
        let ptime := env.etimeC + t0
        let pickID := env.mkID ptime ++ "-PRE-" ++ st.net ++ "." ++ st.sta
            ++ "." ++ st.loc ++ "." ++ st.cha
        if env.registered pickID then
          findUnpickedStations env maxDelta rest acc
        else if pickID ∈ acc.map Prod.fst then
          findUnpickedStations env maxDelta rest acc
        else
          findUnpickedStations env maxDelta rest (acc ++ [(pickID, ptime)])

-- ---------------------------------------------------------------------
-- Candidate pre-filter, deduplication and arrival building
-- (lib/dbutil.py `loadPicksForOrigin`, lines 135-287)
-- ---------------------------------------------------------------------

-- A pick as handled by loadPicksForOrigin.
structure DPick where
  id : String
  net : String
  sta : String
  loc : String
  cha : String
  wfid : String
  ptime : ℚ
  ctime : ℚ
deriving Repr, DecidableEq

def nslcOf (p : DPick) : Nslc := (p.net, p.sta, p.loc, p.cha)

-- An Arrival as built at dbutil lines 272-279.
structure DArr where
  phase : String
  pickID : String
  timeUsed : Bool
  weight : ℚ
deriving Repr, DecidableEq

-- External collaborators of loadPicksForOrigin: `stationDelta` is the
-- station-dictionary lookup composed with delazi_wgs84 (none models the
-- caught KeyError of an unresolvable station); `ttimes` is
-- `ttt.compute(...)` at the fixed source depth.
structure TTEnv where
  etime : ℚ
  stationDelta : String × String → Option ℚ
  ttimes : ℚ → List ℚ
  maxDelta : ℚ
  maxResidual : ℚ

/-- dbutil lines 157-187: the coarse candidate pre-filter.  Unresolvable
stations and out-of-range distances are skipped; `ttimes[0]` at line 177
is unguarded, so an empty travel-time result raises IndexError; a pick is
kept iff its residual dt satisfies the strict window
`-4*maxResidual < dt < 4*maxResidual` (line 182). -/
def prefilterPicks (env : TTEnv) : List DPick → Except PyErr (List DPick)
  | [] => Except.ok []
  | p :: ps =>
    match env.stationDelta (p.net, p.sta) with
    | none => prefilterPicks env ps
    | some d =>
      if env.maxDelta < d then prefilterPicks env ps
      else
        match env.ttimes d with
        | [] => Except.error PyErr.indexError
        | t0 :: _ =>
          let dt := p.ptime - (env.etime + t0)
          if -4 * env.maxResidual < dt ∧ dt < 4 * env.maxResidual then
            match prefilterPicks env ps with
            | Except.error e => Except.error e
            | Except.ok r => Except.ok (p :: r)
          else prefilterPicks env ps

-- The pure survival predicate of the pre-filter (same decision tree).
def prefilterKeeps (env : TTEnv) (p : DPick) : Bool :=
  match env.stationDelta (p.net, p.sta) with
  | none => false
  | some d =>
    if env.maxDelta < d then false
    else
      match env.ttimes d with
      | [] => false
      | t0 :: _ =>
        let dt := p.ptime - (env.etime + t0)
        decide (-4 * env.maxResidual < dt) && decide (dt < 4 * env.maxResidual)

-- dbutil lines 191-197: group the surviving picks by NSLC, in first-seen
-- order, appending within each group in delivery order.
def addToGroups : List (Nslc × List DPick) → DPick → List (Nslc × List DPick)
  | [], p => [(nslcOf p, [p])]
  | (k, g) :: rest, p =>
    if k = nslcOf p then (k, g ++ [p]) :: rest
    else (k, g) :: addToGroups rest p

def groupByNslc (ps : List DPick) : List (Nslc × List DPick) :=
  ps.foldl addToGroups []

-- dbutil lines 199-202: stable ascending sort of each group by creation
-- time (Python `sorted` is stable).
def insertByCt (p : DPick) : List DPick → List DPick
  | [] => [p]
  | q :: qs => if q.ctime < p.ctime then q :: insertByCt p qs else p :: q :: qs

def sortByCt : List DPick → List DPick
  | [] => []
  | p :: ps => insertByCt p (sortByCt ps)

-- association lookup among the built groups
def findGroup : List (Nslc × List DPick) → Nslc → Option (List DPick)
  | [], _ => none
  | (k, g) :: rest, k' => if k = k' then some g else findGroup rest k'

def groupOf (l : List DPick) (k : Nslc) : List DPick :=
  l.filter (fun q => nslcOf q = k)

-- The representative the source picks for a channel group:
-- `picks_per_nslc[nslc][0]` after the stable sort (dbutil line 236).
def groupRep (l : List DPick) (k : Nslc) : Option DPick :=
  match findGroup (groupByNslc l) k with
  | none => none
  | some g => (sortByCt g).head?

/-- dbutil lines 233-280: the association loop.  `spl` models the Python
name `stream_phase_list`: it is bound (`some`) only when the
`keepManualPicks` branch ran; referencing it while unbound raises
NameError (dbutil line 240).  A group representative whose waveform ID
already carries a manual "P" is skipped; surviving representatives are
appended as P arrivals with weight 1 if their residual lies strictly
within `2*maxResidual`. -/
def associateGroups (env : TTEnv) (spl : Option (List (String × String))) :
    List (Nslc × List DPick) → Except PyErr (List (DPick × DArr))
  | [] => Except.ok []
  | (_, g) :: rest =>
    match sortByCt g with
    | [] => Except.error PyErr.indexError
    | pick :: _ =>
      match spl with
      | none => Except.error PyErr.nameError
      | some l =>
        if (pick.wfid, "P") ∈ l then associateGroups env spl rest
        else
          match env.stationDelta (pick.net, pick.sta) with
          | none => associateGroups env spl rest
          | some d =>
            if env.maxDelta < d then associateGroups env spl rest
            else
              match env.ttimes d with
              | [] => Except.error PyErr.indexError
              | t0 :: _ =>
                let dt := pick.ptime - (env.etime + t0)
                if -2 * env.maxResidual < dt ∧ dt < 2 * env.maxResidual then
                  match associateGroups env spl rest with
                  | Except.error e => Except.error e
                  | Except.ok r =>
                    Except.ok ((pick,
                      { phase := "P", pickID := pick.id,
                        timeUsed := decide (d ≤ env.maxDelta),
                        weight := 1 }) :: r)
                else associateGroups env spl rest

/-- The pre-filter / group / associate pipeline of `loadPicksForOrigin`.
`manualPairs` is the (waveform ID, phase code) list collected from the
retained manual arrivals (dbutil lines 216-224); when `keepManualPicks`
is false the Python name `stream_phase_list` is never bound. -/
def loadPicksAssoc (env : TTEnv) (keepManualPicks : Bool)
    (manualPairs : List (String × String)) (input : List DPick) :
    Except PyErr (List (DPick × DArr)) :=
  match prefilterPicks env input with
  | Except.error e => Except.error e
  | Except.ok pre =>
    associateGroups env (if keepManualPicks then some manualPairs else none)
      (groupByNslc pre)

-- ---------------------------------------------------------------------
-- Relocator entry point (bin/scdlpicker-relocate-event.py)
-- ---------------------------------------------------------------------

-- The attributes of RelocatorApp that `processEvent` dereferences; a
-- `none` field is an attribute that was never assigned, and reading it
-- raises AttributeError.
structure RelocSelf where
  allowedAuthorIDs : Option (List String)
  author : Option String
  agencyID : Option String
  fixedDepth : Option (Option ℚ)
  maxDelta : Option ℚ
  minimumDepth : Option ℚ
  maxResidual : Option ℚ

/-- The attribute state after `__init__` and `run()` (relocator lines
44-51 and 141-167): `allowedAuthorIDs` comes from the defaults module,
`author`, `agencyID` and `fixedDepth` get command-line or default values,
and no assignment to `maxDelta`, `minimumDepth` or `maxResidual` exists
anywhere in the script. -/
def relocSelfAfterRun (allowed : List String)
    (authorOpt agencyOpt : Option String) (fixedOpt : Option ℚ) : RelocSelf :=
  { allowedAuthorIDs := some allowed
    author := some (authorOpt.getD "dl-reloc")
    agencyID := some (agencyOpt.getD "GFZ")
    fixedDepth := some fixedOpt
    maxDelta := none
    minimumDepth := none
    maxResidual := none }

def getattrOr (nm : String) : Option α → Except PyErr α
  | none => Except.error (PyErr.attributeError nm)
  | some v => Except.ok v

-- The required positional parameters of dbutil.loadPicksForOrigin
-- (dbutil line 135; keepManualPicks has a default).
def loadPicksRequiredParams : List String :=
  ["origin", "inventory", "allowedAuthorIDs", "maxDelta", "maxResidual", "query"]

-- The positional arguments `processEvent` supplies at relocator
-- lines 109-111.
def loadPicksCallArgs : List String :=
  ["query", "origin", "inventory", "allowedAuthorIDs", "maxDelta"]

/-- relocator lines 101-139: `processEvent`.  Event and origin loading are
abstracted as succeeding; the argument expressions of the
`loadPicksForOrigin` call are evaluated left to right (so the
`self.maxDelta` read happens before the call), the call itself is checked
for arity, and the later `relocate` call reads `self.fixedDepth`,
`self.minimumDepth` and `self.maxResidual`. -/
def relocProcessEvent (s : RelocSelf) (eventID : String) :
    Except PyErr String :=
  match getattrOr "allowedAuthorIDs" s.allowedAuthorIDs with
  | Except.error e => Except.error e
  | Except.ok _ =>
    match getattrOr "maxDelta" s.maxDelta with
    | Except.error e => Except.error e
    | Except.ok _ =>
      if loadPicksCallArgs.length = loadPicksRequiredParams.length then
        match getattrOr "fixedDepth" s.fixedDepth with
        | Except.error e => Except.error e
        | Except.ok _ =>
          match getattrOr "minimumDepth" s.minimumDepth with
          | Except.error e => Except.error e
          | Except.ok _ =>
            match getattrOr "maxResidual" s.maxResidual with
            | Except.error e => Except.error e
            | Except.ok _ => Except.ok ("relocated " ++ eventID)
      else Except.error PyErr.typeError

-- The residual of pick `p` is determined once its station resolves to a
-- distance `d` within range and the travel-time table yields a first
-- arrival `t0`; this packages those side conditions of both filter loops.
def resolvedDelta (env : TTEnv) (p : DPick) (d t0 : ℚ) : Prop :=
  env.stationDelta (p.net, p.sta) = some d ∧ ¬ env.maxDelta < d ∧
  ∃ ts, env.ttimes d = t0 :: ts

-- ---------------------------------------------------------------------
-- Concrete inputs used by witnesses and counterexamples
-- ---------------------------------------------------------------------

-- a stream with a single inter-record gap of 1.01 s
def gappyRecs : List WRec := [⟨0, 10⟩, ⟨1101/100, 20⟩]

-- a stream with a single inter-record gap of 0.99 s
def okRecs : List WRec := [⟨0, 10⟩, ⟨1099/100, 20⟩]

def wsC2 : WS :=
  { all_picks := [], new_picks := [], attempted := [], mlpicks := ["pickA"] }

def pkC2 : CPick :=
  { id := "pickA", wfid := "GE.APE..BHZ", manual := false,
    methodID := none, author := none }

def inpC2 : PassInput :=
  { assoc := [pkC2], predicted := [], repickManualPicks := false,
    tryUnpicked := false, author := some "dlpicker" }

def arrsC3 : List OArr := [⟨1, some 42⟩, ⟨1, some 45⟩, ⟨1, some 50⟩]

def arrsC3r : List OArr := [⟨1, some 30⟩, ⟨1, some 35⟩, ⟨1, some 38⟩]

def envW : TTEnv :=
  { etime := 0, stationDelta := fun _ => some 10,
    ttimes := fun _ => [100], maxDelta := 90, maxResidual := 1 }

def pW : DPick :=
  { id := "pk1", net := "GE", sta := "APE", loc := "", cha := "BHZ",
    wfid := "GE.APE..BHZ", ptime := 201/2, ctime := 1 }

def arrW : DArr :=
  { phase := "P", pickID := "pk1", timeUsed := true, weight := 1 }

def pA : DPick :=
  { id := "A", net := "GE", sta := "APE", loc := "", cha := "BHZ",
    wfid := "GE.APE..BHZ", ptime := 10, ctime := 5 }

def pB : DPick :=
  { id := "B", net := "GE", sta := "APE", loc := "", cha := "BHZ",
    wfid := "GE.APE..BHZ", ptime := 11, ctime := 5 }

def kAB : Nslc := ("GE", "APE", "", "BHZ")

def wsC7 : WS :=
  { all_picks := ["p1"], new_picks := [], attempted := [("p1", "W1")],
    mlpicks := [] }

def pk7 : CPick :=
  { id := "p1", wfid := "W1", manual := false, methodID := none, author := none }

def inp7 : PassInput :=
  { assoc := [pk7], predicted := [pk7], repickManualPicks := false,
    tryUnpicked := true, author := some "dlpicker" }

def envC8 : ClientEnv :=
  { ttimesC := fun _ => [], etimeC := 0, blacklist := [],
    configured := [("GE", "APE", "--", "BH")],
    registered := fun _ => false, mkID := fun _ => "T" }

def stC8 : SEntry := { net := "GE", sta := "APE", loc := "", cha := "BH", delta := 104 }

def envD8 : TTEnv :=
  { etime := 0, stationDelta := fun _ => some 104,
    ttimes := fun _ => [], maxDelta := 105, maxResidual := 10 }

def pD8 : DPick :=
  { id := "pk8", net := "GE", sta := "APE", loc := "", cha := "BHZ",
    wfid := "GE.APE..BHZ", ptime := 10, ctime := 1 }

-- ---------------------------------------------------------------------
-- Theorems
-- ---------------------------------------------------------------------

/-- C1: a stream flagged gappy (single 1.01 s gap, tolerance 1.0 s) is
reported in `gappyStreams` yet still present in the waveform set that
`_loadWaveformsForPicks` returns; a 0.99 s gap is not flagged; and no
stream is ever removed by the gap stage, contradicting the claim that a
gappy stream is dropped entirely from the returned waveform set. -/
theorem gapFilter_keeps_gappy_stream :
    gappy 1 (prepare gappyRecs) = true ∧
    (removeGappyStage 1 [("GE.APE..BHZ", gappyRecs)]).2 = ["GE.APE..BHZ"] ∧
    (removeGappyStage 1 [("GE.APE..BHZ", gappyRecs)]).1.map Prod.fst
      = ["GE.APE..BHZ"] ∧
    gappy 1 (prepare okRecs) = false ∧
    (removeGappyStage 1 [("GE.APE..BHZ", okRecs)]).2 = [] ∧
    ∀ (tol : ℚ) (ws : List (String × List WRec)),
      (removeGappyStage tol ws).1.map Prod.fst = ws.map Prod.fst := by
  refine ⟨?_, ?_, ?_, ?_, ?_, ?_⟩
  · norm_num [gappy, prepare, insertRec, gappyRecs]
  · norm_num [removeGappyStage, gappy, prepare, insertRec, gappyRecs]
  · norm_num [removeGappyStage, gappyRecs]
  · norm_num [gappy, prepare, insertRec, okRecs]
  · norm_num [removeGappyStage, gappy, prepare, insertRec, okRecs]
  · intro tol ws
    induction ws with
    | nil => rfl
    | cons h t ih => simp [removeGappyStage] at ih ⊢

/-- C2: with `pickA` registered in `mlpicks` but not yet attempted, the
guard chain of `processOrigin` still adds `pickA` to both `new_picks` and
`attempted_picks` in the same pass: the mlpicks check at client line 670
logs but lacks a `continue`, so it never skips anything. -/
theorem mlpicks_guard_not_enforced :
    "pickA" ∈ wsC2.mlpicks ∧
    (processPass wsC2 inpC2).new_picks = ["pickA"] ∧
    attemptedIds (processPass wsC2 inpC2) = ["pickA"] := by
  refine ⟨by simp [wsC2], ?_, ?_⟩ <;>
    simp [processPass, inpC2, stepAssoc, stepRepick, bumpAll, attemptedIds,
      isRepick, repickMethodIDs, wsC2, pkC2]

/-- C8: an in-range item whose travel-time computation returns the empty
list makes both callers raise IndexError (unguarded `arrivals[0]` at
client line 367, unguarded `ttimes[0]` at dbutil line 177) instead of
skipping the item and continuing. -/
theorem ttimes_empty_raises_indexError :
    findUnpickedStations envC8 105 [stC8] [] = Except.error PyErr.indexError ∧
    prefilterPicks envD8 [pD8] = Except.error PyErr.indexError := by
  constructor
  · norm_num [findUnpickedStations, envC8, stC8]
  · norm_num [prefilterPicks, envD8, pD8]

/-- C9: after `run()` the relocator attributes `maxDelta`, `minimumDepth`
and `maxResidual` are unassigned, the `loadPicksForOrigin` call passes the
query object first and supplies five positional arguments against six
required parameters, and `processEvent` therefore fails (AttributeError on
`self.maxDelta`) for every event ID, before any relocation result. -/
theorem relocator_processEvent_always_fails (allowed : List String)
    (authorOpt agencyOpt : Option String) (fixedOpt : Option ℚ)
    (eventID : String) :
    (relocSelfAfterRun allowed authorOpt agencyOpt fixedOpt).maxDelta = none ∧
    (relocSelfAfterRun allowed authorOpt agencyOpt fixedOpt).minimumDepth = none ∧
    (relocSelfAfterRun allowed authorOpt agencyOpt fixedOpt).maxResidual = none ∧
    loadPicksCallArgs.length = 5 ∧
    loadPicksRequiredParams.length = 6 ∧
    loadPicksCallArgs.head? = some "query" ∧
    loadPicksRequiredParams.head? = some "origin" ∧
    relocProcessEvent (relocSelfAfterRun allowed authorOpt agencyOpt fixedOpt)
      eventID = Except.error (PyErr.attributeError "maxDelta") := by
  refine ⟨rfl, rfl, rfl, rfl, rfl, rfl, rfl, ?_⟩
  simp [relocProcessEvent, relocSelfAfterRun, getattrOr]

-- length is preserved by the ascending insertion
theorem insertQ_length (x : ℚ) (l : List ℚ) :
    (insertQ x l).length = l.length + 1 := by
  induction l with
  | nil => rfl
  | cons y ys ih =>
    by_cases h : y ≤ x <;> simp [insertQ, h, ih]

theorem sortQ_length (l : List ℚ) : (sortQ l).length = l.length := by
  induction l with
  | nil => rfl
  | cons x xs ih => simp [sortQ, insertQ_length, ih]

theorem lastThree_sortQ_length (l : List ℚ) (h : 3 ≤ l.length) :
    (lastThree (sortQ l)).length = 3 := by
  simp [lastThree, sortQ_length]
  omega

/-- C3: when the whitelist branch is not taken and at least three used
arrivals carry a distance, the adaptive maximum distance is the mean of
the three largest used distances, promoted to 105 exactly when that mean
exceeds 40. -/
theorem adaptiveMaxDelta_mean_three_largest (arrs : List OArr)
    (h3 : 3 ≤ (usedDeltas arrs).length) :
    (mean3Largest (usedDeltas arrs) ≤ 40 →
      adaptiveMaxDelta false arrs = mean3Largest (usedDeltas arrs)) ∧
    (40 < mean3Largest (usedDeltas arrs) →
      adaptiveMaxDelta false arrs = 105) := by
  have hlen := lastThree_sortQ_length (usedDeltas arrs) h3
  have hm : npAverage (lastThree (sortQ (usedDeltas arrs)))
      = mean3Largest (usedDeltas arrs) := by
    unfold npAverage mean3Largest
    rw [hlen]
    norm_num
  have hunfold : adaptiveMaxDelta false arrs =
      if 40 < mean3Largest (usedDeltas arrs) then 105
      else mean3Largest (usedDeltas arrs) := by
    simp only [adaptiveMaxDelta, Bool.false_eq_true, if_false, gt_iff_lt, hm]
  constructor
  · intro hle
    rw [hunfold, if_neg (not_lt.mpr hle)]
  · intro hgt
    rw [hunfold, if_pos hgt]

/-- C3 witness: used arrivals at 42, 45 and 50 degrees have mean 137/3,
which exceeds 40, so the adaptive maximum distance is promoted to 105. -/
theorem adaptiveMaxDelta_mean_three_largest_witness :
    3 ≤ (usedDeltas arrsC3).length ∧
    40 < mean3Largest (usedDeltas arrsC3) ∧
    adaptiveMaxDelta false arrsC3 = 105 := by
  have h3 : 3 ≤ (usedDeltas arrsC3).length := by
    norm_num [usedDeltas, arrsC3, List.filterMap_cons]
  have hgt : 40 < mean3Largest (usedDeltas arrsC3) := by
    norm_num [mean3Largest, usedDeltas, arrsC3, List.filterMap_cons, sortQ,
      insertQ, lastThree]
  exact ⟨h3, hgt, (adaptiveMaxDelta_mean_three_largest arrsC3 h3).2 hgt⟩

-- An unclaimed regional check: used arrivals at 30, 35 and 38 degrees
-- keep the mean of the three largest, 103/3, below the promotion limit.
theorem adaptiveMaxDelta_regional_example :
    adaptiveMaxDelta false arrsC3r = 103/3 := by
  norm_num [adaptiveMaxDelta, usedDeltas, arrsC3r, List.filterMap_cons,
    sortQ, insertQ, lastThree, npAverage]

-- looking up a key after one grouping step
theorem findGroup_addToGroups (gs : List (Nslc × List DPick)) (p : DPick)
    (k : Nslc) :
    findGroup (addToGroups gs p) k =
      if nslcOf p = k then
        match findGroup gs k with
        | some g => some (g ++ [p])
        | none => some [p]
      else findGroup gs k := by
  induction gs with
  | nil =>
    by_cases h : nslcOf p = k <;> simp [addToGroups, findGroup, h]
  | cons kg rest ih =>
    obtain ⟨k', g⟩ := kg
    by_cases h1 : k' = nslcOf p
    · subst h1
      by_cases h2 : nslcOf p = k <;> simp [addToGroups, findGroup, h2]
    · by_cases h2 : k' = k
      · subst h2
        have h3 : nslcOf p ≠ k' := fun h => h1 h.symm
        simp [addToGroups, findGroup, h1, h3]
      · simp [addToGroups, findGroup, h1, h2, ih]

-- looking up a key after grouping a whole delivery list
theorem findGroup_foldl (l : List DPick) :
    ∀ (acc : List (Nslc × List DPick)) (k : Nslc),
      findGroup (l.foldl addToGroups acc) k =
        match findGroup acc k with
        | some g => some (g ++ groupOf l k)
        | none => if groupOf l k = [] then none else some (groupOf l k) := by
  induction l with
  | nil =>
    intro acc k
    cases h : findGroup acc k <;> simp [groupOf, h]
  | cons p ps ih =>
    intro acc k
    rw [List.foldl_cons, ih (addToGroups acc p) k, findGroup_addToGroups]
    by_cases hpk : nslcOf p = k
    · cases h : findGroup acc k <;>
        simp [groupOf, List.filter_cons, hpk, h]
    · cases h : findGroup acc k <;>
        simp [groupOf, List.filter_cons, hpk, h]

theorem findGroup_groupByNslc (l : List DPick) (k : Nslc) :
    findGroup (groupByNslc l) k =
      if groupOf l k = [] then none else some (groupOf l k) := by
  have h := findGroup_foldl l [] k
  simpa [groupByNslc, findGroup] using h

theorem mem_insertByCt (a p : DPick) (l : List DPick) :
    a ∈ insertByCt p l ↔ a = p ∨ a ∈ l := by
  induction l with
  | nil => simp [insertByCt]
  | cons q qs ih =>
    by_cases h : q.ctime < p.ctime
    · simp [insertByCt, h, ih]
      tauto
    · simp [insertByCt, h, ih]

theorem mem_sortByCt (a : DPick) (l : List DPick) : a ∈ sortByCt l ↔ a ∈ l := by
  induction l with
  | nil => simp [sortByCt]
  | cons p ps ih => simp [sortByCt, mem_insertByCt, ih]

theorem pairwise_insertByCt (p : DPick) (l : List DPick)
    (h : l.Pairwise (fun a b => a.ctime ≤ b.ctime)) :
    (insertByCt p l).Pairwise (fun a b => a.ctime ≤ b.ctime) := by
  induction l with
  | nil => simp [insertByCt]
  | cons q qs ih =>
    rw [List.pairwise_cons] at h
    obtain ⟨hq, hqs⟩ := h
    by_cases hc : q.ctime < p.ctime
    · simp only [insertByCt, if_pos hc]
      rw [List.pairwise_cons]
      refine ⟨?_, ih hqs⟩
      intro b hb
      rw [mem_insertByCt] at hb
      rcases hb with rfl | hb
      · exact le_of_lt hc
      · exact hq b hb
    · simp only [insertByCt, if_neg hc]
      rw [List.pairwise_cons]
      have hpq : p.ctime ≤ q.ctime := le_of_not_lt hc
      refine ⟨?_, ?_⟩
      · intro b hb
        rcases List.mem_cons.mp hb with rfl | hb
        · exact hpq
        · exact le_trans hpq (hq b hb)
      · rw [List.pairwise_cons]
        exact ⟨hq, hqs⟩

theorem sortByCt_pairwise (l : List DPick) :
    (sortByCt l).Pairwise (fun a b => a.ctime ≤ b.ctime) := by
  induction l with
  | nil => simp [sortByCt]
  | cons p ps ih =>
    simp only [sortByCt]
    exact pairwise_insertByCt p _ ih

theorem head_sortByCt_min (l : List DPick) (p : DPick) (rest : List DPick)
    (h : sortByCt l = p :: rest) : ∀ q ∈ l, p.ctime ≤ q.ctime := by
  intro q hq
  have hq' : q ∈ sortByCt l := (mem_sortByCt q l).mpr hq
  rw [h] at hq'
  rcases List.mem_cons.mp hq' with rfl | hq'
  · exact le_refl _
  · have hpw := sortByCt_pairwise l
    rw [h, List.pairwise_cons] at hpw
    exact hpw.1 q hq'

/-- C5, amended: the representative `picks_per_nslc[nslc][0]` is always a
pick of minimal creation time in its channel group, and whenever the
minimal creation time is attained by a unique pick of the group (in
particular when creation times are distinct), the representative is that
pick for every delivery order of the candidates.  (With tied creation
times the stable sort makes the choice delivery-order dependent.) -/
theorem groupRep_earliest_created (l : List DPick) (k : Nslc) :
    (∀ p, groupRep l k = some p →
      p ∈ groupOf l k ∧ ∀ q ∈ groupOf l k, p.ctime ≤ q.ctime) ∧
    (∀ p, p ∈ groupOf l k →
      (∀ q ∈ groupOf l k, q ≠ p → p.ctime < q.ctime) →
      groupRep l k = some p) := by
  constructor
  · intro p hp
    unfold groupRep at hp
    rw [findGroup_groupByNslc] at hp
    by_cases hemp : groupOf l k = []
    · rw [if_pos hemp] at hp
      cases hp
    · rw [if_neg hemp] at hp
      have hp' : (sortByCt (groupOf l k)).head? = some p := hp
      cases hs : sortByCt (groupOf l k) with
      | nil => rw [hs] at hp'; cases hp'
      | cons p0 rest =>
        rw [hs] at hp'
        simp only [List.head?_cons, Option.some.injEq] at hp'
        subst hp'
        constructor
        · have hmem : p0 ∈ sortByCt (groupOf l k) := by
            rw [hs]; exact List.mem_cons_self _ _
          exact (mem_sortByCt _ _).mp hmem
        · exact head_sortByCt_min _ _ _ hs
  · intro p hp huniq
    have hemp : groupOf l k ≠ [] := by
      intro h
      rw [h] at hp
      cases hp
    unfold groupRep
    rw [findGroup_groupByNslc, if_neg hemp]
    show (sortByCt (groupOf l k)).head? = some p
    cases hs : sortByCt (groupOf l k) with
    | nil =>
      exfalso
      have hmem : p ∈ sortByCt (groupOf l k) := (mem_sortByCt _ _).mpr hp
      rw [hs] at hmem
      cases hmem
    | cons p0 rest =>
      have hp0mem : p0 ∈ groupOf l k := by
        have hmem : p0 ∈ sortByCt (groupOf l k) := by
          rw [hs]; exact List.mem_cons_self _ _
        exact (mem_sortByCt _ _).mp hmem
      have hmin : p0.ctime ≤ p.ctime := head_sortByCt_min _ _ _ hs p hp
      by_cases heq : p0 = p
      · simp [heq]
      · exact absurd hmin (not_le.mpr (huniq p0 hp0mem heq))

/-- C5, counterexample to the claim as stated: two picks on the same
channel with equal creation times; delivered as [pA, pB] the
representative is pA, delivered as [pB, pA] it is pB, although the two
delivery orders are permutations of each other — so the choice is not
independent of the order delivered by the catalog query. -/
theorem groupRep_order_dependent_on_ties :
    groupRep [pA, pB] kAB = some pA ∧
    groupRep [pB, pA] kAB = some pB ∧
    pA ≠ pB ∧ pA.ctime = pB.ctime ∧
    nslcOf pA = kAB ∧ nslcOf pB = kAB ∧
    [pA, pB].Perm [pB, pA] := by
  refine ⟨?_, ?_, by simp [pA, pB], rfl, rfl, rfl, List.Perm.swap pB pA []⟩
  · norm_num [groupRep, groupByNslc, addToGroups, findGroup, sortByCt,
      insertByCt, nslcOf, pA, pB, kAB]
  · norm_num [groupRep, groupByNslc, addToGroups, findGroup, sortByCt,
      insertByCt, nslcOf, pA, pB, kAB]

-- a fold preserves any invariant its step preserves
theorem foldl_preserves {α β : Type} (I : α → Prop) (f : α → β → α)
    (hf : ∀ a b, I a → I (f a b)) :
    ∀ (l : List β) (a : α), I a → I (l.foldl f a) := by
  intro l
  induction l with
  | nil => intro a h; exact h
  | cons b bs ih => intro a h; exact ih (f a b) (hf a b h)

theorem bumpAll_fields (ws : WS) (p : CPick) :
    (bumpAll ws p).new_picks = ws.new_picks ∧
    (bumpAll ws p).attempted = ws.attempted := by
  unfold bumpAll
  split <;> simp

theorem stepRepick_cases (rmp : Bool) (ap : Option String) (ws : WS)
    (p : CPick) :
    stepRepick rmp ap ws p = ws ∨
    (p.id ∉ attemptedIds ws ∧
      stepRepick rmp ap ws p =
        { ws with new_picks := ws.new_picks ++ [p.id],
                  attempted := ws.attempted ++ [(p.id, p.wfid)] }) := by
  unfold stepRepick
  split_ifs with h1 h2 h3 h4
  · exact Or.inl rfl
  · exact Or.inl rfl
  · exact Or.inl rfl
  · exact Or.inl rfl
  · exact Or.inr ⟨h2, rfl⟩

theorem stepAssoc_cases (rmp : Bool) (ap : Option String) (ws : WS)
    (p : CPick) :
    ((stepAssoc rmp ap ws p).new_picks = ws.new_picks ∧
      (stepAssoc rmp ap ws p).attempted = ws.attempted) ∨
    (p.id ∉ attemptedIds ws ∧
      (stepAssoc rmp ap ws p).new_picks = ws.new_picks ++ [p.id] ∧
      (stepAssoc rmp ap ws p).attempted = ws.attempted ++ [(p.id, p.wfid)]) := by
  unfold stepAssoc
  obtain ⟨hn, ha⟩ := bumpAll_fields ws p
  have hids : attemptedIds (bumpAll ws p) = attemptedIds ws := by
    unfold attemptedIds
    rw [ha]
  rcases stepRepick_cases rmp ap (bumpAll ws p) p with h | ⟨hmem, h⟩
  · exact Or.inl ⟨by rw [h, hn], by rw [h, ha]⟩
  · refine Or.inr ⟨by rw [hids] at hmem; exact hmem, ?_, ?_⟩
    · rw [h]
      simp [hn]
    · rw [h]
      simp [ha]

theorem stepPred_cases (ws : WS) (p : CPick) :
    ((stepPred ws p).new_picks = ws.new_picks ∧
      (stepPred ws p).attempted = ws.attempted) ∨
    (p.id ∉ attemptedIds ws ∧
      (stepPred ws p).new_picks = ws.new_picks ++ [p.id] ∧
      (stepPred ws p).attempted = ws.attempted ++ [(p.id, p.wfid)]) := by
  unfold stepPred
  split_ifs with h1 h2
  · exact Or.inl ⟨rfl, rfl⟩
  · exact Or.inl ⟨rfl, rfl⟩
  · exact Or.inr ⟨h2, rfl, rfl⟩

-- the per-pick invariant of claim C7
def blockedInv (pid : String) (ws : WS) : Prop :=
  pid ∈ attemptedIds ws ∧ pid ∉ ws.new_picks

theorem step_blockedInv_of_cases (pid : String) (ws ws' : WS) (p : CPick)
    (hcase :
      (ws'.new_picks = ws.new_picks ∧ ws'.attempted = ws.attempted) ∨
      (p.id ∉ attemptedIds ws ∧
        ws'.new_picks = ws.new_picks ++ [p.id] ∧
        ws'.attempted = ws.attempted ++ [(p.id, p.wfid)]))
    (h : blockedInv pid ws) : blockedInv pid ws' := by
  obtain ⟨hatt, hnew⟩ := h
  rcases hcase with ⟨hn, ha⟩ | ⟨hmem, hn, ha⟩
  · exact ⟨by unfold attemptedIds; rw [ha]; exact hatt, by rw [hn]; exact hnew⟩
  · have hne : pid ≠ p.id := fun he => hmem (he ▸ hatt)
    constructor
    · unfold attemptedIds at hatt ⊢
      rw [ha, List.map_append]
      exact List.mem_append_left _ hatt
    · rw [hn]
      intro hin
      rcases List.mem_append.mp hin with hin | hin
      · exact hnew hin
      · exact hne (List.mem_singleton.mp hin)

theorem step_attempted_sub_of_cases (ws ws' : WS) (p : CPick)
    (hcase :
      (ws'.new_picks = ws.new_picks ∧ ws'.attempted = ws.attempted) ∨
      (p.id ∉ attemptedIds ws ∧
        ws'.new_picks = ws.new_picks ++ [p.id] ∧
        ws'.attempted = ws.attempted ++ [(p.id, p.wfid)])) :
    List.Sublist ws.attempted ws'.attempted := by
  rcases hcase with ⟨_, ha⟩ | ⟨_, _, ha⟩
  · rw [ha]
  · rw [ha]
    exact List.sublist_append_left _ _

theorem processPass_attempted_sub (ws : WS) (inp : PassInput) :
    List.Sublist ws.attempted (processPass ws inp).attempted := by
  unfold processPass
  have h1 : ∀ (a : WS) (b : CPick), List.Sublist ws.attempted a.attempted →
      List.Sublist ws.attempted (stepAssoc inp.repickManualPicks inp.author a b).attempted :=
    fun a b h => h.trans
      (step_attempted_sub_of_cases a _ b (stepAssoc_cases _ _ a b))
  have h2 : ∀ (a : WS) (b : CPick), List.Sublist ws.attempted a.attempted →
      List.Sublist ws.attempted (stepPred a b).attempted :=
    fun a b h => h.trans (step_attempted_sub_of_cases a _ b (stepPred_cases a b))
  have hfold := foldl_preserves (fun (a : WS) => List.Sublist ws.attempted a.attempted) _ h1
    inp.assoc { ws with new_picks := [] } (List.Sublist.refl _)
  split
  · exact foldl_preserves (fun (a : WS) => List.Sublist ws.attempted a.attempted) _ h2
      inp.predicted _ hfold
  · exact hfold

theorem processPass_blocks (ws : WS) (inp : PassInput) (pid : String)
    (h : pid ∈ attemptedIds ws) : blockedInv pid (processPass ws inp) := by
  unfold processPass
  have h0 : blockedInv pid { ws with new_picks := [] } := by
    constructor
    · unfold attemptedIds at h ⊢
      exact h
    · simp
  have h1 : ∀ (a : WS) (b : CPick), blockedInv pid a →
      blockedInv pid (stepAssoc inp.repickManualPicks inp.author a b) :=
    fun a b hI => step_blockedInv_of_cases pid a _ b (stepAssoc_cases _ _ a b) hI
  have h2 : ∀ (a : WS) (b : CPick), blockedInv pid a →
      blockedInv pid (stepPred a b) :=
    fun a b hI => step_blockedInv_of_cases pid a _ b (stepPred_cases a b) hI
  have hfold := foldl_preserves (blockedInv pid) _ h1 inp.assoc _ h0
  split
  · exact foldl_preserves (blockedInv pid) _ h2 inp.predicted _ hfold
  · exact hfold

/-- C7: for any workspace and any sequence of processing passes, once a
pick ID is in `attempted_picks` it stays there (the attempted list of the
start state is a sublist of every later attempted list, and each pass only
extends it), and that pick ID is absent from `new_picks` after every pass
of the sequence, no matter how often the pick is re-offered by candidate
collection or predicted-pick synthesis. -/
theorem attempted_picks_monotone_and_blocking (ws : WS)
    (passes : List PassInput) (pid : String)
    (h : pid ∈ attemptedIds ws) :
    List.Sublist ws.attempted (runPasses ws passes).attempted ∧
    pid ∈ attemptedIds (runPasses ws passes) ∧
    ∀ pre inp rest, passes = pre ++ inp :: rest →
      List.Sublist (runPasses ws pre).attempted (runPasses ws (pre ++ [inp])).attempted ∧
      pid ∉ (runPasses ws (pre ++ [inp])).new_picks := by
  refine ⟨?_, ?_, ?_⟩
  · unfold runPasses
    exact foldl_preserves (fun (a : WS) => List.Sublist ws.attempted a.attempted)
      processPass
      (fun a b hI => hI.trans (processPass_attempted_sub a b))
      passes ws (List.Sublist.refl _)
  · unfold runPasses
    exact foldl_preserves (fun a => pid ∈ attemptedIds a)
      processPass
      (fun a b hI => (processPass_blocks a b pid hI).1)
      passes ws h
  · intro pre inp rest heq
    have hsplit : runPasses ws (pre ++ [inp]) = processPass (runPasses ws pre) inp := by
      unfold runPasses
      rw [List.foldl_append]
      rfl
    have hpre : pid ∈ attemptedIds (runPasses ws pre) := by
      unfold runPasses
      exact foldl_preserves (fun a => pid ∈ attemptedIds a)
        processPass
        (fun a b hI => (processPass_blocks a b pid hI).1)
        pre ws h
    constructor
    · rw [hsplit]
      exact processPass_attempted_sub _ _
    · rw [hsplit]
      exact (processPass_blocks _ _ pid hpre).2

/-- C7 witness: a workspace that has already attempted pick `p1`, with two
further passes both re-offering `p1` as an associated pick and as a
predicted pick: `p1` stays in the attempted list and never re-enters
`new_picks`. -/
theorem attempted_picks_monotone_and_blocking_witness :
    "p1" ∈ attemptedIds wsC7 ∧
    (List.Sublist wsC7.attempted (runPasses wsC7 [inp7, inp7]).attempted ∧
      "p1" ∈ attemptedIds (runPasses wsC7 [inp7, inp7]) ∧
      ∀ pre inp rest, [inp7, inp7] = pre ++ inp :: rest →
        List.Sublist (runPasses wsC7 pre).attempted
          (runPasses wsC7 (pre ++ [inp])).attempted ∧
        "p1" ∉ (runPasses wsC7 (pre ++ [inp])).new_picks) := by
  have h : "p1" ∈ attemptedIds wsC7 := by simp [wsC7, attemptedIds]
  exact ⟨h, attempted_picks_monotone_and_blocking wsC7 [inp7, inp7] "p1" h⟩

-- the pre-filter keeps exactly the picks its pure decision tree accepts
theorem prefilterPicks_ok (env : TTEnv) (l : List DPick) :
    ∀ res, prefilterPicks env l = Except.ok res →
      res = l.filter (fun p => prefilterKeeps env p) := by
  induction l using prefilterPicks.induct env with
  | case1 =>
    intro res h
    simp only [prefilterPicks, Except.ok.injEq] at h
    simp [← h]
  | case2 p ps hsd ih =>
    intro res h
    simp only [prefilterPicks, hsd] at h
    rw [List.filter_cons, if_neg (by simp [prefilterKeeps, hsd])]
    exact ih res h
  | case3 p ps d hsd hd ih =>
    intro res h
    simp only [prefilterPicks, hsd, if_pos hd] at h
    rw [List.filter_cons, if_neg (by simp [prefilterKeeps, hsd, hd])]
    exact ih res h
  | case4 p ps d hsd hd htt =>
    intro res h
    simp only [prefilterPicks, hsd, if_neg hd, htt] at h
    exact Except.noConfusion h
  | case5 p ps d hsd hd t0 tail htt dt hw e herr ih =>
    intro res h
    simp only [prefilterPicks, hsd, if_neg hd, htt, if_pos hw, herr] at h
    exact Except.noConfusion h
  | case6 p ps d hsd hd t0 tail htt dt hw r hrec ih =>
    intro res h
    simp only [prefilterPicks, hsd, if_neg hd, htt, if_pos hw, hrec,
      Except.ok.injEq] at h
    subst h
    rw [List.filter_cons,
      if_pos (by simp only [prefilterKeeps, hsd, if_neg hd, htt,
        Bool.and_eq_true, decide_eq_true_eq]; exact hw)]
    rw [ih r hrec]
  | case7 p ps d hsd hd t0 tail htt dt hw ih =>
    intro res h
    simp only [prefilterPicks, hsd, if_neg hd, htt, if_neg hw] at h
    rw [List.filter_cons,
      if_neg (by simp only [prefilterKeeps, hsd, if_neg hd, htt,
        Bool.and_eq_true, decide_eq_true_eq]; exact hw)]
    exact ih res h

-- every pair an association run accepts satisfies the arrival contract
theorem associateGroups_ok (env : TTEnv) (lman : List (String × String))
    (gs : List (Nslc × List DPick)) :
    ∀ pairs, associateGroups env (some lman) gs = Except.ok pairs →
      ∀ pa ∈ pairs,
        pa.2.phase = "P" ∧ pa.2.pickID = pa.1.id ∧ pa.2.weight = 1 ∧
        (pa.1.wfid, "P") ∉ lman ∧
        ∃ d t0 ts, env.stationDelta (pa.1.net, pa.1.sta) = some d ∧
          ¬ env.maxDelta < d ∧ env.ttimes d = t0 :: ts ∧
          -2 * env.maxResidual < pa.1.ptime - (env.etime + t0) ∧
          pa.1.ptime - (env.etime + t0) < 2 * env.maxResidual := by
  induction gs using associateGroups.induct env (some lman) with
  | case1 =>
    intro pairs h pa hpa
    simp only [associateGroups, Except.ok.injEq] at h
    subst h
    exact absurd hpa (List.not_mem_nil pa)
  | case2 fst g rest hsort =>
    intro pairs h
    simp only [associateGroups, hsort] at h
    exact Except.noConfusion h
  | case3 fst g rest p ps hsort hspl =>
    exact absurd hspl (by simp)
  | case4 fst g rest p ps hsort l hspl hmem ih =>
    injection hspl with heq
    subst heq
    intro pairs h pa hpa
    simp only [associateGroups, hsort, if_pos hmem] at h
    exact ih pairs h pa hpa
  | case5 fst g rest p ps hsort l hspl hnot hsd ih =>
    injection hspl with heq
    subst heq
    intro pairs h pa hpa
    simp only [associateGroups, hsort, if_neg hnot, hsd] at h
    exact ih pairs h pa hpa
  | case6 fst g rest p ps hsort l hspl hnot d hsd hd ih =>
    injection hspl with heq
    subst heq
    intro pairs h pa hpa
    simp only [associateGroups, hsort, if_neg hnot, hsd, if_pos hd] at h
    exact ih pairs h pa hpa
  | case7 fst g rest p ps hsort l hspl hnot d hsd hd htt =>
    injection hspl with heq
    subst heq
    intro pairs h
    simp only [associateGroups, hsort, if_neg hnot, hsd, if_neg hd, htt] at h
    exact Except.noConfusion h
  | case8 fst g rest p ps hsort l hspl hnot d hsd hd y ys htt dt hw e herr ih =>
    injection hspl with heq
    subst heq
    intro pairs h
    simp only [associateGroups, hsort, if_neg hnot, hsd, if_neg hd, htt,
      if_pos hw, herr] at h
    exact Except.noConfusion h
  | case9 fst g rest p ps hsort l hspl hnot d hsd hd y ys htt dt hw r hrec ih =>
    injection hspl with heq
    subst heq
    intro pairs h pa hpa
    simp only [associateGroups, hsort, if_neg hnot, hsd, if_neg hd, htt,
      if_pos hw, hrec, Except.ok.injEq] at h
    subst h
    rcases List.mem_cons.mp hpa with rfl | hpa
    · exact ⟨rfl, rfl, rfl, hnot, d, y, ys, hsd, hd, htt, hw.1, hw.2⟩
    · exact ih r hrec pa hpa
  | case10 fst g rest p ps hsort l hspl hnot d hsd hd y ys htt dt hw ih =>
    injection hspl with heq
    subst heq
    intro pairs h pa hpa
    simp only [associateGroups, hsort, if_neg hnot, hsd, if_neg hd, htt,
      if_neg hw] at h
    exact ih pairs h pa hpa

theorem insertByCt_length (p : DPick) (l : List DPick) :
    (insertByCt p l).length = l.length + 1 := by
  induction l with
  | nil => rfl
  | cons q qs ih =>
    by_cases h : q.ctime < p.ctime <;> simp [insertByCt, h, ih]

theorem sortByCt_length (l : List DPick) : (sortByCt l).length = l.length := by
  induction l with
  | nil => rfl
  | cons p ps ih => simp [sortByCt, insertByCt_length, ih]

theorem sortByCt_ne_nil (g : List DPick) (h : g ≠ []) : sortByCt g ≠ [] := by
  intro hnil
  have hlen := sortByCt_length g
  rw [hnil] at hlen
  exact h (List.eq_nil_of_length_eq_zero hlen.symm)

theorem addToGroups_groups_ne_nil (gs : List (Nslc × List DPick)) (p : DPick)
    (h : ∀ kg ∈ gs, kg.2 ≠ []) : ∀ kg ∈ addToGroups gs p, kg.2 ≠ [] := by
  induction gs with
  | nil =>
    intro kg hkg
    simp only [addToGroups, List.mem_singleton] at hkg
    subst hkg
    simp
  | cons kg0 rest ih =>
    obtain ⟨k, g⟩ := kg0
    intro kg hkg
    by_cases hk : k = nslcOf p
    · simp only [addToGroups, if_pos hk] at hkg
      rcases List.mem_cons.mp hkg with rfl | hkg
      · simp
      · exact h kg (List.mem_cons_of_mem _ hkg)
    · simp only [addToGroups, if_neg hk] at hkg
      rcases List.mem_cons.mp hkg with rfl | hkg
      · exact h (k, g) (List.mem_cons_self _ _)
      · exact ih (fun kg' hkg' => h kg' (List.mem_cons_of_mem _ hkg')) kg hkg

theorem groupByNslc_groups_ne_nil (l : List DPick) :
    ∀ kg ∈ groupByNslc l, kg.2 ≠ [] := by
  unfold groupByNslc
  exact foldl_preserves (fun gs => ∀ kg ∈ gs, kg.2 ≠ []) addToGroups
    (fun gs p hI => addToGroups_groups_ne_nil gs p hI) l []
    (fun kg hkg => absurd hkg (List.not_mem_nil kg))

theorem addToGroups_ne_nil (gs : List (Nslc × List DPick)) (p : DPick) :
    addToGroups gs p ≠ [] := by
  cases gs with
  | nil => simp [addToGroups]
  | cons kg rest =>
    obtain ⟨k, g⟩ := kg
    by_cases hk : k = nslcOf p <;> simp [addToGroups, hk]

theorem groupByNslc_ne_nil (l : List DPick) (h : l ≠ []) :
    groupByNslc l ≠ [] := by
  cases l with
  | nil => exact absurd rfl h
  | cons p ps =>
    unfold groupByNslc
    rw [List.foldl_cons]
    exact foldl_preserves (fun gs => gs ≠ []) addToGroups
      (fun gs q _ => addToGroups_ne_nil gs q) ps (addToGroups [] p)
      (addToGroups_ne_nil [] p)

/-- C10: when `keepManualPicks` is false, the Python name
`stream_phase_list` is never bound, and as soon as at least one pick
survives the pre-filter, the first group's membership test at dbutil
line 240 raises NameError — `loadPicksForOrigin` aborts and no arrivals
are built. -/
theorem keepManualPicks_false_raises_nameError (env : TTEnv)
    (mp : List (String × String)) (input res : List DPick)
    (h1 : prefilterPicks env input = Except.ok res) (h2 : res ≠ []) :
    loadPicksAssoc env false mp input = Except.error PyErr.nameError := by
  unfold loadPicksAssoc
  rw [h1]
  show associateGroups env none (groupByNslc res) = Except.error PyErr.nameError
  cases hgs : groupByNslc res with
  | nil => exact absurd hgs (groupByNslc_ne_nil res h2)
  | cons kg rest =>
    obtain ⟨k, g⟩ := kg
    have hgne : g ≠ [] :=
      groupByNslc_groups_ne_nil res (k, g)
        (by rw [hgs]; exact List.mem_cons_self _ _)
    cases hs : sortByCt g with
    | nil => exact absurd hs (sortByCt_ne_nil g hgne)
    | cons pick r => simp only [associateGroups, hs]

/-- C10 witness: one surviving pick and `keepManualPicks = false` yield
NameError. -/
theorem keepManualPicks_false_raises_nameError_witness :
    prefilterPicks envW [pW] = Except.ok [pW] ∧ ([pW] : List DPick) ≠ [] ∧
    loadPicksAssoc envW false [] [pW] = Except.error PyErr.nameError := by
  have e1 : prefilterPicks envW [pW] = Except.ok [pW] := by
    norm_num [prefilterPicks, envW, pW]
  exact ⟨e1, by simp,
    keepManualPicks_false_raises_nameError envW [] [pW] [pW] e1 (by simp)⟩

/-- C4: in a `keepManualPicks` run that completes, every automatic
arrival the association appends references its group representative with
phase "P", and that representative's waveform ID never appears with
phase "P" among the retained manual arrivals — so the final arrival list
(manual arrivals plus the appended automatic ones) never contains an
automatic arrival duplicating the (waveform ID, "P") of a manual one. -/
theorem manual_P_blocks_automatic (env : TTEnv)
    (manualPairs : List (String × String)) (input : List DPick)
    (pairs : List (DPick × DArr))
    (h : loadPicksAssoc env true manualPairs input = Except.ok pairs) :
    ∀ pa ∈ pairs,
      pa.2.phase = "P" ∧ pa.2.pickID = pa.1.id ∧
      (pa.1.wfid, "P") ∉ manualPairs := by
  unfold loadPicksAssoc at h
  cases hpre : prefilterPicks env input with
  | error e =>
    rw [hpre] at h
    exact Except.noConfusion h
  | ok pre =>
    rw [hpre] at h
    have h' : associateGroups env (some manualPairs) (groupByNslc pre)
        = Except.ok pairs := h
    intro pa hpa
    obtain ⟨h1, h2, _, h4, _⟩ :=
      associateGroups_ok env manualPairs (groupByNslc pre) pairs h' pa hpa
    exact ⟨h1, h2, h4⟩

/-- C4 witness: a run with one manual pair on a different stream accepts
the candidate and the accepted arrival does not duplicate any manual
(waveform ID, "P"). -/
theorem manual_P_blocks_automatic_witness :
    loadPicksAssoc envW true [("OTHER", "P")] [pW] = Except.ok [(pW, arrW)] ∧
    ∀ pa ∈ [(pW, arrW)],
      pa.2.phase = "P" ∧ pa.2.pickID = pa.1.id ∧
      (pa.1.wfid, "P") ∉ [(("OTHER" : String), ("P" : String))] := by
  have e : loadPicksAssoc envW true [("OTHER", "P")] [pW]
      = Except.ok [(pW, arrW)] := by
    norm_num [loadPicksAssoc, prefilterPicks, associateGroups, groupByNslc,
      addToGroups, sortByCt, insertByCt, nslcOf, envW, pW, arrW]
    decide
  exact ⟨e, manual_P_blocks_automatic envW [("OTHER", "P")] [pW] [(pW, arrW)] e⟩

/-- C6: the residual funnel has strict, symmetric windows at both stages:
a pick whose station resolves in range survives the pre-filter iff its
residual dt satisfies -4*maxResidual < dt < 4*maxResidual (dt exactly
±4*maxResidual is excluded), and a representative is appended as an
arrival only if -2*maxResidual < dt < 2*maxResidual (dt exactly
±2*maxResidual is excluded). -/
theorem residual_windows_two_stage (env : TTEnv) (input res : List DPick)
    (spl : List (String × String)) (pairs : List (DPick × DArr))
    (h1 : prefilterPicks env input = Except.ok res)
    (h2 : associateGroups env (some spl) (groupByNslc res) = Except.ok pairs) :
    (∀ p d t0, p ∈ input → resolvedDelta env p d t0 →
      (p ∈ res ↔ -4 * env.maxResidual < p.ptime - (env.etime + t0) ∧
        p.ptime - (env.etime + t0) < 4 * env.maxResidual)) ∧
    (∀ p d t0, p ∈ input → resolvedDelta env p d t0 →
      (p.ptime - (env.etime + t0) = 4 * env.maxResidual ∨
        p.ptime - (env.etime + t0) = -4 * env.maxResidual) → p ∉ res) ∧
    (∀ pa ∈ pairs, ∃ d t0, resolvedDelta env pa.1 d t0 ∧
      -2 * env.maxResidual < pa.1.ptime - (env.etime + t0) ∧
      pa.1.ptime - (env.etime + t0) < 2 * env.maxResidual) ∧
    (∀ p d t0, resolvedDelta env p d t0 →
      (p.ptime - (env.etime + t0) = 2 * env.maxResidual ∨
        p.ptime - (env.etime + t0) = -2 * env.maxResidual) →
      ∀ a, (p, a) ∉ pairs) := by
  have hres := prefilterPicks_ok env input res h1
  have hkeep : ∀ p d t0, resolvedDelta env p d t0 →
      (prefilterKeeps env p = true ↔
        -4 * env.maxResidual < p.ptime - (env.etime + t0) ∧
        p.ptime - (env.etime + t0) < 4 * env.maxResidual) := by
    intro p d t0 hrd
    obtain ⟨hsd, hd, ts, htt⟩ := hrd
    simp only [prefilterKeeps, hsd, if_neg hd, htt, Bool.and_eq_true,
      decide_eq_true_eq]
  have hmem : ∀ p d t0, p ∈ input → resolvedDelta env p d t0 →
      (p ∈ res ↔ -4 * env.maxResidual < p.ptime - (env.etime + t0) ∧
        p.ptime - (env.etime + t0) < 4 * env.maxResidual) := by
    intro p d t0 hp hrd
    rw [hres, List.mem_filter]
    constructor
    · rintro ⟨_, hk⟩
      exact (hkeep p d t0 hrd).mp hk
    · intro hw
      exact ⟨hp, (hkeep p d t0 hrd).mpr hw⟩
  refine ⟨hmem, ?_, ?_, ?_⟩
  · intro p d t0 hp hrd hbd hmem'
    have hw := (hmem p d t0 hp hrd).mp hmem'
    rcases hbd with hb | hb
    · rw [hb] at hw
      exact lt_irrefl _ hw.2
    · rw [hb] at hw
      exact lt_irrefl _ hw.1
  · intro pa hpa
    obtain ⟨_, _, _, _, d, t0, ts, hsd, hd, htt, hlo, hhi⟩ :=
      associateGroups_ok env spl (groupByNslc res) pairs h2 pa hpa
    exact ⟨d, t0, ⟨hsd, hd, ts, htt⟩, hlo, hhi⟩
  · intro p d t0 hrd hbd a hpa
    obtain ⟨_, _, _, _, d', t0', ts', hsd', hd', htt', hlo, hhi⟩ :=
      associateGroups_ok env spl (groupByNslc res) pairs h2 (p, a) hpa
    obtain ⟨hsd, hd, ts, htt⟩ := hrd
    rw [hsd] at hsd'
    injection hsd' with hdd
    subst hdd
    rw [htt] at htt'
    injection htt' with ht hts
    subst ht
    rcases hbd with hb | hb
    · rw [hb] at hhi
      exact lt_irrefl _ hhi
    · rw [hb] at hlo
      exact lt_irrefl _ hlo

/-- C6 witness: a concrete run (residual 1/2, maxResidual 1) through both
stages, instantiating the two-window funnel statement. -/
theorem residual_windows_two_stage_witness :
    prefilterPicks envW [pW] = Except.ok [pW] ∧
    associateGroups envW (some []) (groupByNslc [pW])
      = Except.ok [(pW, arrW)] ∧
    ((∀ p d t0, p ∈ [pW] → resolvedDelta envW p d t0 →
      (p ∈ [pW] ↔ -4 * envW.maxResidual < p.ptime - (envW.etime + t0) ∧
        p.ptime - (envW.etime + t0) < 4 * envW.maxResidual)) ∧
    (∀ p d t0, p ∈ [pW] → resolvedDelta envW p d t0 →
      (p.ptime - (envW.etime + t0) = 4 * envW.maxResidual ∨
        p.ptime - (envW.etime + t0) = -4 * envW.maxResidual) → p ∉ [pW]) ∧
    (∀ pa ∈ [(pW, arrW)], ∃ d t0, resolvedDelta envW pa.1 d t0 ∧
      -2 * envW.maxResidual < pa.1.ptime - (envW.etime + t0) ∧
      pa.1.ptime - (envW.etime + t0) < 2 * envW.maxResidual) ∧
    (∀ p d t0, resolvedDelta envW p d t0 →
      (p.ptime - (envW.etime + t0) = 2 * envW.maxResidual ∨
        p.ptime - (envW.etime + t0) = -2 * envW.maxResidual) →
      ∀ a, (p, a) ∉ [(pW, arrW)])) := by
  have e1 : prefilterPicks envW [pW] = Except.ok [pW] := by
    norm_num [prefilterPicks, envW, pW]
  have e2 : associateGroups envW (some []) (groupByNslc [pW])
      = Except.ok [(pW, arrW)] := by
    norm_num [associateGroups, groupByNslc, addToGroups, sortByCt,
      insertByCt, nslcOf, envW, pW, arrW,
      decide_eq_true (show (10 : ℚ) ≤ 90 by norm_num)]
  exact ⟨e1, e2,
    residual_windows_two_stage envW [pW] [pW] [] [(pW, arrW)] e1 e2⟩
